import Mathlib

/-!
Shallow embedding of the `symfony-style-console` TypeScript library
(formatter, style stack, table renderer, progress bar) and proofs about it.

Strings are modelled as `List Char`; JavaScript exceptions are modelled with
`Except`; objects mutated in place are modelled by explicit state passing.
Each definition mirrors one function of the source and is named after it.
-/

namespace SymfonyConsole

/-- Does `l` start with `pat`? (prefix test used to model JS substring search). -/
def startsWithChars : List Char → List Char → Bool
  | [], _ => true
  | _ :: _, [] => false
  | p :: ps, c :: cs => p = c && startsWithChars ps cs

/-- Model of `str.indexOf(pat) !== -1`: does `pat` occur as a contiguous run in `l`? -/
def containsSub (pat : List Char) : List Char → Bool
  | [] => pat.isEmpty
  | c :: rest => startsWithChars pat (c :: rest) || containsSub pat rest

/-- Recursion core of `jsReplaceAll`. The fuel decreases by one per consumed
input position, so `l.length` units always suffice; the fuel-exhausted branch is
unreachable through the `jsReplaceAll` wrapper. -/
def jsReplaceAllAux (pat rep : List Char) : Nat → List Char → List Char
  | _, [] => []
  | 0, l => l
  | fuel + 1, c :: cs =>
    match pat with
    | [] => c :: cs
    | p :: ps =>
      if startsWithChars (p :: ps) (c :: cs) then
        rep ++ jsReplaceAllAux (p :: ps) rep fuel (cs.drop ps.length)
      else
        c :: jsReplaceAllAux (p :: ps) rep fuel cs

/-- Model of `String.prototype.replace` with a global literal pattern:
non-overlapping, left-to-right replacement of `pat` by `rep`. -/
def jsReplaceAll (pat rep l : List Char) : List Char :=
  jsReplaceAllAux pat rep l.length l

/-- Occurrences of a single character (model of `Helper.countOccurences` with a
one-character needle, as used by `Table.fillNextRows` with needle `"\n"`). -/
def countChar (c : Char) (l : List Char) : Nat :=
  (l.filter (· = c)).length

/-- Model of `String.prototype.split('\n')`. -/
def splitOnNl : List Char → List (List Char)
  | [] => [[]]
  | c :: rest =>
    if c = '\n' then [] :: splitOnNl rest
    else
      match splitOnNl rest with
      | chunk :: chunks => (c :: chunk) :: chunks
      | [] => [[c]]

/-- JS `string.repeat(n)` for character lists. -/
def repeatList (l : List Char) (n : Nat) : List Char :=
  (List.replicate n l).flatten

/-- Association-list lookup with `List Char` (or any decidable-equality) keys;
models reading a property of a plain JS object. -/
def assocLookup {κ α : Type} [DecidableEq κ] : List (κ × α) → κ → Option α
  | [], _ => none
  | (k, v) :: rest, key => if k = key then some v else assocLookup rest key

/-- Association-list update: overwrite the first binding of `key`, else append;
models assigning a property of a plain JS object (insertion order preserved). -/
def assocSet {κ α : Type} [DecidableEq κ] : List (κ × α) → κ → α → List (κ × α)
  | [], key, v => [(key, v)]
  | (k, w) :: rest, key, v =>
    if k = key then (key, v) :: rest else (k, w) :: assocSet rest key v

/-- ASCII lowercasing of a character list (JS `toLowerCase` on the names used here). -/
def toLowerStr (l : List Char) : List Char :=
  l.map Char.toLower

/-- One `{set, unset}` pair of ANSI numeric codes (`AnsiCodeConfig` in the source). -/
structure AnsiCode where
  set : Nat
  unset : Nat
deriving DecidableEq

/-- `OutputFormatterStyle.availableForegroundColors`. -/
def availableForegroundColors : List (List Char × AnsiCode) :=
  [("black".toList, ⟨30, 39⟩), ("red".toList, ⟨31, 39⟩), ("green".toList, ⟨32, 39⟩),
   ("yellow".toList, ⟨33, 39⟩), ("blue".toList, ⟨34, 39⟩), ("magenta".toList, ⟨35, 39⟩),
   ("cyan".toList, ⟨36, 39⟩), ("white".toList, ⟨37, 39⟩), ("default".toList, ⟨39, 39⟩)]

/-- `OutputFormatterStyle.availableBackgroundColors`. -/
def availableBackgroundColors : List (List Char × AnsiCode) :=
  [("black".toList, ⟨40, 49⟩), ("red".toList, ⟨41, 49⟩), ("green".toList, ⟨42, 49⟩),
   ("yellow".toList, ⟨43, 49⟩), ("blue".toList, ⟨44, 49⟩), ("magenta".toList, ⟨45, 49⟩),
   ("cyan".toList, ⟨46, 49⟩), ("white".toList, ⟨47, 49⟩), ("default".toList, ⟨49, 49⟩)]

/-- `OutputFormatterStyle.availableOptions`. -/
def availableOptions : List (List Char × AnsiCode) :=
  [("bold".toList, ⟨1, 22⟩), ("underscore".toList, ⟨4, 24⟩), ("blink".toList, ⟨5, 25⟩),
   ("reverse".toList, ⟨7, 27⟩), ("dim".toList, ⟨2, 22⟩), ("conceal".toList, ⟨8, 28⟩)]

/-- Errors raised by the formatter (JS exceptions escaping the corresponding methods). -/
inductive FmtErr where
  /-- `ReferenceError` from `OutputFormatterStyle.setForeground`. -/
  | invalidForeground
  /-- `ReferenceError` from `OutputFormatterStyle.setBackground`. -/
  | invalidBackground
  /-- `ReferenceError` from `OutputFormatterStyle.setOption` (caught by the caller). -/
  | invalidOption
  /-- `TypeError` from `Array.from(null)` when an `options=` value has no runs. -/
  | optionsTypeError
  /-- `SyntaxError('Incorrectly nested style tag found.')` from the style stack. -/
  | nestingError
  /-- `Error` from `Table.calculateColumnsWidth` when `chunkString` returns false. -/
  | chunkError
deriving DecidableEq

/-- `OutputFormatterStyle`: optional foreground/background codes plus option codes. -/
structure OutputFormatterStyle where
  foreground : Option AnsiCode
  background : Option AnsiCode
  options : List AnsiCode
deriving DecidableEq

/-- `new OutputFormatterStyle()` with no arguments. -/
def emptyOFStyle : OutputFormatterStyle :=
  { foreground := none, background := none, options := [] }

/-- `OutputFormatterStyle.setForeground`: `null` clears, an unknown name throws. -/
def OutputFormatterStyle.setForeground (st : OutputFormatterStyle)
    (color : Option (List Char)) : Except FmtErr OutputFormatterStyle :=
  match color with
  | none => .ok { st with foreground := none }
  | some c =>
    match assocLookup availableForegroundColors c with
    | none => .error .invalidForeground
    | some code => .ok { st with foreground := some code }

/-- `OutputFormatterStyle.setBackground`: `null` clears, an unknown name throws. -/
def OutputFormatterStyle.setBackground (st : OutputFormatterStyle)
    (color : Option (List Char)) : Except FmtErr OutputFormatterStyle :=
  match color with
  | none => .ok { st with background := none }
  | some c =>
    match assocLookup availableBackgroundColors c with
    | none => .error .invalidBackground
    | some code => .ok { st with background := some code }

/-- `OutputFormatterStyle.setOption`: unknown names throw; a known option is added
once (the source's `arrContains` reference check coincides with value equality,
since the six option code pairs are pairwise distinct). -/
def OutputFormatterStyle.setOption (st : OutputFormatterStyle)
    (o : List Char) : Except FmtErr OutputFormatterStyle :=
  match assocLookup availableOptions o with
  | none => .error .invalidOption
  | some code =>
    if st.options.contains code then .ok st
    else .ok { st with options := st.options ++ [code] }

/-- Decimal digits of a natural number (JS number-to-string for the ANSI codes). -/
def natChars (n : Nat) : List Char :=
  (Nat.repr n).toList

/-- `setCodes.join(';')` over rendered code numbers. -/
def joinSemicolon : List Nat → List Char
  | [] => []
  | [n] => natChars n
  | n :: rest => natChars n ++ ';' :: joinSemicolon rest

/-- `OutputFormatterStyle.apply`: wrap `text` in one combined set/unset escape pair,
or return it unchanged when no code is active. -/
def OutputFormatterStyle.apply (st : OutputFormatterStyle) (text : List Char) : List Char :=
  let setCodes :=
    (match st.foreground with | some c => [c.set] | none => []) ++
    (match st.background with | some c => [c.set] | none => []) ++
    st.options.map AnsiCode.set
  let unsetCodes :=
    (match st.foreground with | some c => [c.unset] | none => []) ++
    (match st.background with | some c => [c.unset] | none => []) ++
    st.options.map AnsiCode.unset
  if setCodes.isEmpty then text
  else
    '\x1b' :: '[' :: joinSemicolon setCodes ++ 'm' ::
      (text ++ '\x1b' :: '[' :: joinSemicolon unsetCodes ++ ['m'])

/-- `OutputFormatterStyleStack`: the pushed styles (bottom first, top last, as in
the source's array) together with the configured empty style. -/
structure OutputFormatterStyleStack where
  styles : List OutputFormatterStyle
  emptyStyle : OutputFormatterStyle
deriving DecidableEq

/-- `OutputFormatterStyleStack.push`: append at the top (end of the array). -/
def OutputFormatterStyleStack.push (st : OutputFormatterStyleStack)
    (s : OutputFormatterStyle) : OutputFormatterStyleStack :=
  { st with styles := st.styles ++ [s] }

/-- `this.styles.pop()`: split a non-empty array into its last element and the rest. -/
def popLast : List OutputFormatterStyle →
    Option (OutputFormatterStyle × List OutputFormatterStyle)
  | [] => none
  | s :: rest =>
    match popLast rest with
    | some (top, kept) => some (top, s :: kept)
    | none => some (s, [])

/-- The top-down search loop of `OutputFormatterStyleStack.pop(style)`: find the
topmost entry whose rendered output on `''` equals that of `style`; return it with
`styles.slice(0, index)` (everything strictly below the match). -/
def popMatch (styles : List OutputFormatterStyle) (style : OutputFormatterStyle) :
    Option (OutputFormatterStyle × List OutputFormatterStyle) :=
  match styles with
  | [] => none
  | s :: rest =>
    match popMatch rest style with
    | some (m, kept) => some (m, s :: kept)
    | none =>
      if s.apply [] = style.apply [] then some (s, []) else none

/-- `OutputFormatterStyleStack.getCurrent`: top of the stack, or the empty style. -/
def OutputFormatterStyleStack.getCurrent (st : OutputFormatterStyleStack) :
    OutputFormatterStyle :=
  match st.styles.getLast? with
  | none => st.emptyStyle
  | some s => s

/-- `OutputFormatterStyleStack.pop`: returns the empty style on an empty stack;
pops the top when no argument is given; otherwise pops the topmost entry matching
by rendered output together with everything above it, or throws `SyntaxError`. -/
def OutputFormatterStyleStack.pop (st : OutputFormatterStyleStack)
    (arg : Option OutputFormatterStyle) :
    Except Unit (OutputFormatterStyle × OutputFormatterStyleStack) :=
  match st.styles with
  | [] => .ok (st.emptyStyle, st)
  | y :: ys =>
    match arg with
    | none =>
      match popLast (y :: ys) with
      | some (top, kept) => .ok (top, { st with styles := kept })
      | none => .ok (st.emptyStyle, st)
    | some style =>
      match popMatch (y :: ys) style with
      | some (m, kept) => .ok (m, { st with styles := kept })
      | none => .error ()

/-- `OutputFormatter`: the decorated flag, the registered styles (a plain JS
object keyed by lowercased name, modelled as an insertion-ordered association
list), and the style stack. -/
structure OutputFormatter where
  decorated : Bool
  styles : List (List Char × OutputFormatterStyle)
  styleStack : OutputFormatterStyleStack
deriving DecidableEq

/-- `OutputFormatter.setStyle`: store under the lowercased name. -/
def OutputFormatter.setStyle (f : OutputFormatter) (name : List Char)
    (st : OutputFormatterStyle) : OutputFormatter :=
  { f with styles := assocSet f.styles (toLowerStr name) st }

/-- `OutputFormatter.hasStyle`: truthiness of the entry under the lowercased name. -/
def OutputFormatter.hasStyle (f : OutputFormatter) (name : List Char) : Bool :=
  (assocLookup f.styles (toLowerStr name)).isSome

/-- `OutputFormatter.getStyle`: throws `ReferenceError` when `hasStyle` is false,
otherwise returns the stored style. -/
def OutputFormatter.getStyle (f : OutputFormatter) (name : List Char) :
    Except Unit OutputFormatterStyle :=
  if f.hasStyle name then
    match assocLookup f.styles (toLowerStr name) with
    | some st => .ok st
    | none => .error ()
  else .error ()

/-- `new OutputFormatterStyle('white', 'red')` (the pre-registered `error` style). -/
def styleError : OutputFormatterStyle :=
  { foreground := some ⟨37, 39⟩, background := some ⟨41, 49⟩, options := [] }

/-- `new OutputFormatterStyle('green')` (the pre-registered `info` style). -/
def styleInfo : OutputFormatterStyle :=
  { foreground := some ⟨32, 39⟩, background := none, options := [] }

/-- `new OutputFormatterStyle('yellow')` (the pre-registered `comment` style). -/
def styleComment : OutputFormatterStyle :=
  { foreground := some ⟨33, 39⟩, background := none, options := [] }

/-- `new OutputFormatterStyle('black', 'cyan')` (the pre-registered `question` style). -/
def styleQuestion : OutputFormatterStyle :=
  { foreground := some ⟨30, 39⟩, background := some ⟨46, 49⟩, options := [] }

/-- `new OutputFormatter(decorated)` with no extra styles: registers the four
default styles and creates a fresh empty style stack. -/
def defaultFormatter (decorated : Bool) : OutputFormatter :=
  ((((⟨decorated, [], ⟨[], emptyOFStyle⟩⟩ : OutputFormatter).setStyle
      "error".toList styleError).setStyle
      "info".toList styleInfo).setStyle
      "comment".toList styleComment).setStyle
      "question".toList styleQuestion

/-- One match of the inline-spec regex `([^=]+)=([^;]+)(;|$)` at the start of `l`:
the key, the value and the remaining input after the match. Maximal-munch is
exact here because neither character class can contain its terminator. -/
def matchClauseAt (l : List Char) : Option (List Char × List Char × List Char) :=
  let k := l.takeWhile (· ≠ '=')
  if k.isEmpty then none
  else
    match l.drop k.length with
    | '=' :: rest2 =>
      let v := rest2.takeWhile (· ≠ ';')
      if v.isEmpty then none
      else
        match rest2.drop v.length with
        | ';' :: rest4 => some (k, v, rest4)
        | rest3 => some (k, v, rest3)
    | _ => none

/-- The `styleRegex.exec` loop of `createStyleFromString`: all matches of
`([^=]+)=([^;]+)(;|$)`, left to right. Fuelled by the input length, which
bounds the number of scanning steps. -/
def execClausesAux : Nat → List Char → List (List Char × List Char)
  | 0, _ => []
  | _ + 1, [] => []
  | fuel + 1, c :: rest =>
    match matchClauseAt (c :: rest) with
    | some (k, v, restAfter) => (k, v) :: execClausesAux fuel restAfter
    | none => execClausesAux fuel rest

/-- All `key=value` clauses found in an inline style specification. -/
def execClauses (l : List Char) : List (List Char × List Char) :=
  execClausesAux l.length l

/-- `match[2].match(/([^,;]+)/g)`: the maximal runs of characters that are
neither `,` nor `;`. -/
def optionRuns : List Char → List (List Char)
  | [] => []
  | c :: rest =>
    if c = ',' ∨ c = ';' then optionRuns rest
    else
      match optionRuns rest with
      | run :: runs =>
        match rest with
        | r :: _ => if r = ',' ∨ r = ';' then [c] :: run :: runs else (c :: run) :: runs
        | [] => [c] :: runs
      | [] => [[c]]

/-- The `options` loop of `createStyleFromString`: apply each option name;
an invalid name is caught and makes the whole parse return `false` (`none`). -/
def applyOptionNames (st : OutputFormatterStyle) :
    List (List Char) → Except FmtErr (Option OutputFormatterStyle)
  | [] => .ok (some st)
  | o :: rest =>
    match st.setOption o with
    | .error _ => .ok none
    | .ok st2 => applyOptionNames st2 rest

/-- Processing of a single `key=value` clause in `createStyleFromString`:
`fg`/`bg` set colors (errors propagate), `options` applies option names
(unknown names are caught, no runs at all throws `TypeError`), any other key
makes the parse return `false` (`none`). -/
def applyClause (st : OutputFormatterStyle) (k v : List Char) :
    Except FmtErr (Option OutputFormatterStyle) :=
  if k = "fg".toList then
    match st.setForeground (some v) with
    | .error e => .error e
    | .ok st2 => .ok (some st2)
  else if k = "bg".toList then
    match st.setBackground (some v) with
    | .error e => .error e
    | .ok st2 => .ok (some st2)
  else if k = "options".toList then
    match optionRuns v with
    | [] => .error .optionsTypeError
    | runs => applyOptionNames st runs
  else .ok none

/-- Fold of `applyClause` over all clauses; `none` (the source's `return false`)
aborts the remaining clauses. -/
def applyClauses (st : OutputFormatterStyle) :
    List (List Char × List Char) → Except FmtErr (Option OutputFormatterStyle)
  | [] => .ok (some st)
  | (k, v) :: rest =>
    match applyClause st k v with
    | .error e => .error e
    | .ok none => .ok none
    | .ok (some st2) => applyClauses st2 rest

/-- `OutputFormatter.createStyleFromString`: a registered name resolves directly;
otherwise the inline clauses are parsed (`.ok none` models the source's `false`). -/
def createStyleFromString (f : OutputFormatter) (str : List Char) :
    Except FmtErr (Option OutputFormatterStyle) :=
  match assocLookup f.styles str with
  | some st => .ok (some st)
  | none =>
    match execClauses str with
    | [] => .ok none
    | clauses => applyClauses emptyOFStyle clauses

/-- First character of a tag name: `[a-z]` with the regex `i` flag. -/
def isTagStartChar (c : Char) : Bool :=
  ('a' ≤ c && c ≤ 'z') || ('A' ≤ c && c ≤ 'Z')

/-- Subsequent tag-name characters: `[a-z0-9,_=;-]` with the `i` flag. -/
def isTagChar (c : Char) : Bool :=
  isTagStartChar c || ('0' ≤ c && c ≤ '9') ||
    c = ',' || c = '_' || c = '=' || c = ';' || c = '-'

/-- A match of the tag regex `<((tag)|\/(tag)?)>` anchored at the head of the
input: returns (match length, is-opening, tag name). Maximal-munch is exact
because `>` is not a tag character. -/
def matchTagAt : List Char → Option (Nat × Bool × List Char)
  | '<' :: '/' :: rest =>
    (match rest with
     | c :: rest2 =>
       if isTagStartChar c then
         let run := rest2.takeWhile isTagChar
         match rest2.drop run.length with
         | '>' :: _ => some (4 + run.length, false, c :: run)
         | _ => none
       else if c = '>' then some (3, false, [])
       else none
     | [] => none)
  | '<' :: c :: rest2 =>
    if isTagStartChar c then
      let run := rest2.takeWhile isTagChar
      match rest2.drop run.length with
      | '>' :: _ => some (3 + run.length, true, c :: run)
      | _ => none
    else none
  | _ => none

/-- Leftmost tag match at or after position `pos` in the given suffix. -/
def findTagAux : List Char → Nat → Option (Nat × Nat × Bool × List Char)
  | [], _ => none
  | c :: rest, pos =>
    match matchTagAt (c :: rest) with
    | some (len, isOp, tag) => some (pos, len, isOp, tag)
    | none => findTagAux rest (pos + 1)

/-- `tagsRegex.exec` from `lastIndex = start`: position, length, openness and
name of the leftmost tag match at or after `start`. -/
def findTagFrom (msg : List Char) (start : Nat) : Option (Nat × Nat × Bool × List Char) :=
  findTagAux (msg.drop start) start

/-- `OutputFormatter.applyCurrentStyle`. -/
def OutputFormatter.applyCurrentStyle (f : OutputFormatter) (text : List Char) :
    List Char :=
  if f.decorated = true ∧ text ≠ [] then f.styleStack.getCurrent.apply text
  else text

/-- The unescaping step at the end of `OutputFormatter.format`. When the output
contains `<<`, the source calls `safeReplace(output, {'\<': '<', '<<': '\\'})`;
`safeReplace` builds `new RegExp(key)` from each key, and the regex `\<` built
from the two-character key matches a plain `<` (the backslash is a regex escape),
so the first pass replaces `<` by `<` — the identity — and only the second pass
(`<<` to `\`) has an effect. Otherwise `output.replace(/\\</g, '<')` runs. -/
def unescapeOutput (output : List Char) : List Char :=
  if containsSub "<<".toList output then
    jsReplaceAll "<<".toList "\\".toList (jsReplaceAll "<".toList "<".toList output)
  else
    jsReplaceAll "\\<".toList "<".toList output

/-- The scanning loop of `OutputFormatter.format`. The fuel (one unit per tag
match) is initialised to `msg.length + 1`, which is never exhausted because each
match advances the search position by the match length (at least 3). Errors
thrown while processing a tag are returned together with the formatter state at
the point of the throw, mirroring the persistent mutation of the JS object. -/
def formatLoop (msg : List Char) :
    Nat → OutputFormatter → Nat → Nat → List Char →
    Except FmtErr (List Char) × OutputFormatter
  | fuel, f, searchPos, offset, output =>
    match findTagFrom msg searchPos with
    | none =>
      (.ok (unescapeOutput (output ++ f.applyCurrentStyle (msg.drop offset))), f)
    | some (pos, len, isOp, tag) =>
      match fuel with
      | 0 =>
        (.ok (unescapeOutput (output ++ f.applyCurrentStyle (msg.drop offset))), f)
      | fuel2 + 1 =>
        if 0 < pos ∧ msg.get? (pos - 1) = some '\\' then
          formatLoop msg fuel2 f (pos + len) offset output
        else
          let text := (msg.drop pos).take len
          let output2 := output ++ f.applyCurrentStyle ((msg.drop offset).take (pos - offset))
          match createStyleFromString f (toLowerStr tag) with
          | .error e => (.error e, f)
          | .ok styleOpt =>
            if isOp = false ∧ tag = [] then
              match f.styleStack.pop none with
              | .ok (_, stack2) =>
                formatLoop msg fuel2 { f with styleStack := stack2 } (pos + len)
                  (pos + len) output2
              | .error _ => (.error .nestingError, f)
            else
              match styleOpt with
              | none =>
                formatLoop msg fuel2 f (pos + len) (pos + len)
                  (output2 ++ f.applyCurrentStyle text)
              | some st =>
                if isOp then
                  formatLoop msg fuel2 { f with styleStack := f.styleStack.push st }
                    (pos + len) (pos + len) output2
                else
                  match f.styleStack.pop (some st) with
                  | .ok (_, stack2) =>
                    formatLoop msg fuel2 { f with styleStack := stack2 } (pos + len)
                      (pos + len) output2
                  | .error _ => (.error .nestingError, f)

/-- `OutputFormatter.format`: scan for tags, drive the style stack, apply the
current style to intermediate text, then unescape. Returns the formatted text
(or the thrown error) together with the final formatter state. -/
def format (f : OutputFormatter) (msg : List Char) :
    Except FmtErr (List Char) × OutputFormatter :=
  formatLoop msg (msg.length + 1) f 0 0 []

/-- The replacement pass of `OutputFormatter.escape`:
`text.replace(/([^\\]?)</g, '$1\\<')`. At each position: a non-backslash
character followed by `<` is kept and the `<` escaped (consuming both); an
unpreceded `<` is escaped alone. -/
def jsEscapeLt : List Char → List Char
  | [] => []
  | [c] => if c = '<' then ['\\', '<'] else [c]
  | c1 :: c2 :: rest =>
    if c1 ≠ '\\' ∧ c2 = '<' then c1 :: '\\' :: '<' :: jsEscapeLt rest
    else if c1 = '<' then '\\' :: '<' :: jsEscapeLt (c2 :: rest)
    else c1 :: jsEscapeLt (c2 :: rest)

/-- `Helper.trimEnd(text, '\\')` as used by `escapeTrailingBackslash`: strip all
trailing backslashes. -/
def trimEndBackslash (l : List Char) : List Char :=
  (l.reverse.dropWhile (· = '\\')).reverse

/-- `OutputFormatter.escapeTrailingBackslash`: replace each trailing backslash by
the two-character sentinel `<<`. -/
def escapeTrailingBackslash (text : List Char) : List Char :=
  if text.getLast? = some '\\' then
    let trimmed := trimEndBackslash text
    trimmed ++ repeatList "<<".toList (text.length - trimmed.length)
  else text

/-- `OutputFormatter.escape`: escape `<` characters, then trailing backslashes. -/
def escape (text : List Char) : List Char :=
  escapeTrailingBackslash (jsEscapeLt text)

/-- Recursion core of `stripAnsi`, fuelled by the input length (the fuel
decreases by at least one consumed position per step, so it never runs out
through the `stripAnsi` wrapper). -/
def stripAnsiAux : Nat → List Char → List Char
  | _, [] => []
  | 0, l => l
  | fuel + 1, '\x1b' :: '[' :: rest2 =>
    (match rest2.drop (rest2.takeWhile (· ≠ 'm')).length with
     | 'm' :: rest4 => stripAnsiAux fuel rest4
     | _ => '\x1b' :: stripAnsiAux fuel ('[' :: rest2))
  | fuel + 1, c :: rest => c :: stripAnsiAux fuel rest

/-- The regex replace `/\033\[[^m]*m/g`: strip ANSI CSI sequences. A match
consumes `ESC [`, the maximal run without `m`, and the closing `m`; at a
position with no match the character is kept and scanning advances by one. -/
def stripAnsi (l : List Char) : List Char :=
  stripAnsiAux l.length l

/-- `Helper.removeDecoration`: save the decorated flag, format with decoration
off, strip raw ANSI sequences, restore the flag. When `format` throws, the
exception propagates and the flag is *not* restored (there is no try/finally in
the source), which the state component records. -/
def removeDecorationSt (f : OutputFormatter) (s : List Char) :
    Except FmtErr (List Char) × OutputFormatter :=
  let isDecorated := f.decorated
  match format { f with decorated := false } s with
  | (.ok out, f2) => (.ok (stripAnsi out), { f2 with decorated := isDecorated })
  | (.error e, f2) => (.error e, f2)

/-- `Helper.lengthWithoutDecoration`: length of the decoration-stripped string. -/
def lengthWithoutDecorationSt (f : OutputFormatter) (s : List Char) :
    Except FmtErr Nat × OutputFormatter :=
  match removeDecorationSt f s with
  | (.ok out, f2) => (.ok out.length, f2)
  | (.error e, f2) => (.error e, f2)

/-- The step/max portion of the `ProgressBar` state. The `percent` field (a JS
float) and the display side effects are not part of the modelled state. -/
structure ProgressBarState where
  step : Int
  max : Int
deriving DecidableEq

/-- `ProgressBar.setMaxSteps`: `this.max = Math.max(0, max)`. -/
def ProgressBarState.setMaxSteps (s : ProgressBarState) (m : Int) : ProgressBarState :=
  { s with max := Max.max 0 m }

/-- `ProgressBar.setProgress`: when max is known (non-zero, i.e. truthy) and the
new step exceeds it, max is raised; otherwise a negative step is clamped to 0. -/
def ProgressBarState.setProgress (s : ProgressBarState) (step : Int) : ProgressBarState :=
  if s.max ≠ 0 ∧ s.max < step then { step := step, max := step }
  else if step < 0 then { step := 0, max := s.max }
  else { step := step, max := s.max }

/-- `ProgressBar.advance`: `setProgress(this.step + step)`. -/
def ProgressBarState.advance (s : ProgressBarState) (d : Int) : ProgressBarState :=
  s.setProgress (s.step + d)

/-- A table cell value: a plain string, a `TableCell` with options, or a
`TableSeparator` instance used as a cell (`TableSeparator extends TableCell`). -/
inductive TCell where
  | plain (s : List Char)
  | cell (value : List Char) (colspan rowspan : Nat)
  | sep
deriving DecidableEq

/-- A table row input: an array of cells, or a `TableSeparator` row. -/
inductive TRow where
  | cells (row : List TCell)
  | sep
deriving DecidableEq

/-- `String(cell)`: the cell's text content (`''` for a bare separator). -/
def cellStrOf : TCell → List Char
  | .plain s => s
  | .cell v _ _ => v
  | .sep => []

/-- `cell instanceof TableCell` (true for `TableSeparator`, a subclass). -/
def isTableCell : TCell → Bool
  | .plain _ => false
  | .cell _ _ _ => true
  | .sep => true

/-- `cell instanceof TableSeparator`. -/
def isSepCell : TCell → Bool
  | .sep => true
  | _ => false

/-- `cell.getColspan()` (1, the constructor default, for a separator). -/
def cellColspan : TCell → Nat
  | .cell _ cs _ => cs
  | _ => 1

/-- `cell.getRowspan()`. -/
def cellRowspan : TCell → Nat
  | .cell _ _ rs => rs
  | _ => 1

/-- JS truthiness of a cell value: the empty string is falsy, every object
(including a `TableCell` with empty content) is truthy. -/
def cellTruthy : TCell → Bool
  | .plain s => !s.isEmpty
  | .cell _ _ _ => true
  | .sep => true

/-- `Table.getNumberOfColumns`: physical cell count plus the extra columns
contributed by colspans. -/
def getNumberOfColumns (row : List TCell) : Nat :=
  row.length + (row.map (fun c => if isTableCell c then cellColspan c - 1 else 0)).sum

/-- `Table.calculateNumberOfColumns`: the maximum logical column count over all
header and body rows, separators skipped (`Math.max` seeded with 0). -/
def calculateNumberOfColumns (headers : List (List TCell)) (rows : List TRow) : Nat :=
  ((headers.map getNumberOfColumns) ++
    (rows.filterMap (fun r => match r with
      | .sep => none
      | .cells cs => some (getNumberOfColumns cs)))).foldl Nat.max 0

/-- A sparse JS array of cells (index, value), kept in ascending index order. -/
abbrev SparseCells := List (Nat × TCell)

/-- A sparse JS array of sparse cell rows. -/
abbrev SparseRows := List (Nat × SparseCells)

/-- Assignment into a sparse array, keeping the keys ascending. -/
def spSet {α : Type} : List (Nat × α) → Nat → α → List (Nat × α)
  | [], k, v => [(k, v)]
  | (k1, v1) :: rest, k, v =>
    if k = k1 then (k, v) :: rest
    else if k < k1 then (k, v) :: (k1, v1) :: rest
    else (k1, v1) :: spSet rest k v

/-- Ordered insertion used to keep merged sparse arrays in index order. -/
def spInsertSorted {α : Type} (e : Nat × α) : List (Nat × α) → List (Nat × α)
  | [] => [e]
  | (k1, v1) :: rest =>
    if e.1 ≤ k1 then e :: (k1, v1) :: rest
    else (k1, v1) :: spInsertSorted e rest

/-- `Helper.arrayFill(start, n, [])`: a sparse array with `n` empty rows at the
indices `start .. start + n - 1`. -/
def arrayFillRows (start n : Nat) : SparseRows :=
  (List.range n).map (fun i => (start + i, []))

/-- `Helper.arrayReplaceRecursive(base, snd)` specialized to the sparse row
arrays of `fillNextRows`: every row of `base` is the empty array, so the
recursive object merge of a base row with a replacement row returns the
replacement row — entries of `snd` override entries of `base`, and the result
keeps the ascending index order of a JS array. -/
def arrayReplaceRows (base snd : SparseRows) : SparseRows :=
  ((base.map (fun p => (p.1, (assocLookup snd p.1).getD p.2)))
    ++ snd.filter (fun p => (assocLookup base p.1).isNone)).foldr spInsertSorted []

/-- The inner loop of the rowspan branch of `fillNextRows`: write
`new TableCell(value, {colspan})` into each unmerged row in ascending key order,
where `value` is `lines[key - line] || ''` (`delete lines[0]` leaves a hole),
and break after the row at key `line + nbLines`. -/
def assignUnmerged (line nbLines column colspan : Nat) (lines : List (List Char))
    (deleted0 : Bool) : SparseRows → SparseRows
  | [] => []
  | (key, urow) :: rest =>
    let value :=
      if deleted0 ∧ key - line = 0 then []
      else (lines.get? (key - line)).getD []
    let urow2 := spSet urow column (.cell value colspan 1)
    if nbLines = key - line then (key, urow2) :: rest
    else (key, urow2) :: assignUnmerged line nbLines column colspan lines deleted0 rest

/-- `Table.getNumberOfColumns` applied to a sparse unmerged row (the JS filter
over defined entries). -/
def getNumberOfColumnsSparse (row : SparseCells) : Nat :=
  row.length + (row.map (fun p => if isTableCell p.2 then cellColspan p.2 - 1 else 0)).sum

/-- `Array.prototype.splice(idx, 0, x)`: insertion, appending when the index is
past the end. -/
def jsSpliceInsert {α : Type} (idx : Nat) (x : α) (l : List α) : List α :=
  if idx ≥ l.length then l ++ [x] else l.insertIdx idx x

/-- `row[column] = cell` where the assignment may extend the array; skipped
indices (JS holes) are modelled as empty-string cells. Only reachable through
the rowspan insert branch. -/
def setExtend (l : List TCell) (idx : Nat) (v : TCell) : List TCell :=
  if idx < l.length then l.set idx v
  else l ++ List.replicate (idx - l.length) (.plain []) ++ [v]

/-- `Table.copyRow`: a blank copy of a row — strings become `''`, `TableCell`s
become `new TableCell('', {colspan})`. A separator row has no `.slice` and
would throw in JS; that (unreachable) case yields `[]`. -/
def copyRow (rows : List TRow) (line : Nat) : List TCell :=
  match rows.get? line with
  | some (.cells r) =>
    r.map (fun c => match c with
      | .plain _ => .plain []
      | .cell _ cs _ => .cell [] cs 1
      | .sep => .cell [] 1 1)
  | _ => []

/-- The merge/insert loop of `fillNextRows`: an unmerged row is spliced into the
row already at its key when the combined logical column count fits within the
table, otherwise a blank copy of the preceding row is filled with the non-empty
unmerged cells and inserted at the key. -/
def mergeUnmerged (nCols : Nat) : List TRow → SparseRows → List TRow
  | rows, [] => rows
  | rows, (key, urow) :: rest =>
    let rows2 :=
      match rows.get? key with
      | some (.cells r) =>
        if getNumberOfColumns r + getNumberOfColumnsSparse urow ≤ nCols then
          rows.set key (.cells (urow.foldl
            (fun acc (p : Nat × TCell) => jsSpliceInsert p.1 p.2 acc) r))
        else
          jsSpliceInsert key
            (.cells (urow.foldl (fun acc (p : Nat × TCell) =>
              if (cellStrOf p.2).length ≠ 0 then setExtend acc p.1 p.2 else acc)
              (copyRow rows (key - 1)))) rows
      | _ =>
        jsSpliceInsert key
          (.cells (urow.foldl (fun acc (p : Nat × TCell) =>
            if (cellStrOf p.2).length ≠ 0 then setExtend acc p.1 p.2 else acc)
            (copyRow rows (key - 1)))) rows
    mergeUnmerged nCols rows2 rest

/-- `Table.fillNextRows`: expand cells with `rowspan > 1` into unmerged rows
below (splitting multi-line content line by line), then merge or insert them.
For rows without such cells this is the identity (modulo the JS copy). The
rowspan branch is modelled with value semantics — the PHP original's semantics;
the JS port in fact shares one array object between the slots of `arrayFill`,
an aliasing effect outside this list model and not exercised by any claim. -/
def fillNextRows (nCols : Nat) (inputRows : List TRow) (line : Nat) : List TRow :=
  match inputRows.get? line with
  | none => inputRows
  | some .sep => inputRows
  | some (.cells lineRow) =>
    let stA := (List.range lineRow.length).foldl
      (fun (st : List TCell × SparseRows) column =>
        let curRow := st.1
        let unmerged := st.2
        let c := (curRow.get? column).getD (.plain [])
        if isTableCell c ∧ cellRowspan c > 1 then
          let cellStr := cellStrOf c
          let cs := cellColspan c
          let nb0 := cellRowspan c - 1
          let parts :=
            if cellStr.contains '\n' then
              let ls := splitOnNl cellStr
              let nb := if ls.length > nb0 then countChar '\n' cellStr else nb0
              (ls, true, nb, curRow.set column (.cell ((ls.get? 0).getD []) cs 1))
            else ([cellStr], false, nb0, curRow)
          let unm1 := arrayReplaceRows (arrayFillRows (line + 1) parts.2.2.1) unmerged
          let unm2 := assignUnmerged line parts.2.2.1 column cs parts.1 parts.2.1 unm1
          (parts.2.2.2, unm2)
        else (curRow, unmerged)) (lineRow, [])
    mergeUnmerged nCols (inputRows.set line (.cells stA.1)) stA.2

/-- Two-level sparse assignment `unmergedRows[lineKey][column] = cell`. -/
def spSet2 (sr : SparseRows) (lineKey column : Nat) (v : TCell) : SparseRows :=
  spSet sr lineKey (spSet ((assocLookup sr lineKey).getD []) column v)

/-- The per-row-key unmerged rows recorded by the first `buildTableRows` loop. -/
abbrev SparseRows2 := List (Nat × SparseRows)

/-- The first loop of `Table.buildTableRows` (the loop bound `rows.length` is
re-read each iteration, so rows inserted by `fillNextRows` are processed too):
expand rowspans, then scan each cell of the row for line breaks. The port's
guard reads `if (cellStr.includes('\n')) continue`, which skips exactly the
multi-line cells, so `lines` below it is always the singleton `[cellStr]`, the
cell is rebuilt in place (a `TableCell` keeps its colspan, its rowspan resets to
the default), and the `unmergedRows` split machinery never receives an entry.
Fuelled generously; the fuel only bounds the number of row iterations. -/
def buildPass1 (nCols : Nat) : Nat → Nat → List TRow → SparseRows2 →
    List TRow × SparseRows2
  | 0, _, rows, unm => (rows, unm)
  | fuel + 1, rowKey, rows, unm =>
    if rowKey ≥ rows.length then (rows, unm)
    else
      match rows.get? rowKey with
      | some (.cells _) =>
        let rows2 := fillNextRows nCols rows rowKey
        match rows2.get? rowKey with
        | some (.cells row) =>
          let st := (List.range row.length).foldl
            (fun (st : List TCell × SparseRows) column =>
              let curRow := st.1
              let unmRow := st.2
              let c := (curRow.get? column).getD (.plain [])
              let cellStr := cellStrOf c
              if cellStr.contains '\n' then (curRow, unmRow)
              else
                let lines := splitOnNl cellStr
                (List.range lines.length).foldl
                  (fun (st2 : List TCell × SparseRows) lineKey =>
                    let lineStr := (lines.get? lineKey).getD []
                    let lineCell : TCell :=
                      if isTableCell c then .cell lineStr (cellColspan c) 1
                      else .plain lineStr
                    if lineKey = 0 then (st2.1.set column lineCell, st2.2)
                    else (st2.1, spSet2 st2.2 lineKey column lineCell))
                  (curRow, unmRow)) (row, [])
          buildPass1 nCols fuel (rowKey + 1) (rows2.set rowKey (.cells st.1))
            (if st.2.isEmpty then unm else spSet unm rowKey st.2)
        | _ => buildPass1 nCols fuel (rowKey + 1) rows2 unm
      | _ => buildPass1 nCols fuel (rowKey + 1) rows unm

/-- `Table.fillCells`: expand `colspan > 1` cells by appending empty-string
filler for each grouped column. -/
def fillCells (row : List TCell) : List TCell :=
  row.foldl (fun acc c =>
    if isTableCell c ∧ cellColspan c > 1 then
      acc ++ [c] ++ List.replicate (cellColspan c - 1) (.plain [])
    else acc ++ [c]) []

/-- A sparse unmerged row as a dense row (holes become empty strings; JS keeps
holes, but `unmergedRows` is always empty — see `buildPass1`). -/
def sparseToRow (sc : SparseCells) : List TCell :=
  sc.foldl (fun acc p => setExtend acc p.1 p.2) []

/-- The second loop of `Table.buildTableRows`: skip row keys holding separators
(`continue` — dropping them from the built rows), expand colspans via
`fillCells`, and append the unmerged rows recorded for the key. -/
def buildPass2 (rows : List TRow) (unm : SparseRows2) : List TRow :=
  (List.range rows.length).foldl (fun acc rowKey =>
    match rows.get? rowKey with
    | some (.cells row) =>
      let acc2 := acc ++ [TRow.cells (fillCells row)]
      match assocLookup unm rowKey with
      | some sr => acc2 ++ sr.map (fun p => TRow.cells (sparseToRow p.2))
      | none => acc2
    | _ => acc) []

/-- `Table.buildTableRows`. The fuel passed to the first loop covers the
initial row count plus every row that the rowspan expansion could insert. -/
def buildTableRows (nCols : Nat) (rows : List TRow) : List TRow :=
  let fuelBound := rows.length + (rows.map (fun r => match r with
    | .sep => 0
    | .cells cs => (cs.map (fun c => cellRowspan c + (cellStrOf c).length)).sum)).sum + 1
  let st := buildPass1 nCols fuelBound 0 rows []
  buildPass2 st.1 st.2

/-- Cell padding directions (`Helper.PAD_TYPE`). -/
inductive PadType where
  | left
  | right
  | both
deriving DecidableEq

/-- `TableStyle`: the characters and format strings of a table style. -/
structure TableStyle where
  paddingChar : List Char
  horizontalBorderChar : List Char
  verticalBorderChar : List Char
  crossingChar : List Char
  cellHeaderFormat : List Char
  cellRowFormat : List Char
  cellRowContentFormat : List Char
  borderFormat : List Char
  padType : PadType
deriving DecidableEq

/-- `new TableStyle()` with the class's field initialisers (the `default` entry
of `Table.initStyles`). -/
def defaultTableStyle : TableStyle :=
  { paddingChar := " ".toList, horizontalBorderChar := "-".toList,
    verticalBorderChar := "|".toList, crossingChar := "+".toList,
    cellHeaderFormat := "<info>%s</info>".toList, cellRowFormat := "%s".toList,
    cellRowContentFormat := " %s ".toList, borderFormat := "%s".toList,
    padType := .right }

/-- The `%s` fragment of `Helper.sprintf`, exact for the format strings the
table uses (each contains a single `%s` directive and no other `%` pattern). -/
def sprintfS (fmt arg : List Char) : List Char :=
  jsReplaceAll "%s".toList arg fmt

/-- The repeater of `Helper.strPad` (`''` for an empty pad string, where JS
would loop forever; `TableStyle.setPaddingChar` rejects empty strings). -/
def strPadRepeater (s : List Char) (len : Nat) : List Char :=
  if s.isEmpty then [] else (repeatList s (len / s.length + 1)).take len

/-- `Helper.strPad`. -/
def strPad (input : List Char) (padLength : Nat) (padString : List Char)
    (padType : PadType) : List Char :=
  if padLength ≤ input.length then input
  else
    let padToGo := padLength - input.length
    match padType with
    | .left => strPadRepeater padString padToGo ++ input
    | .right => input ++ strPadRepeater padString padToGo
    | .both =>
      let half := strPadRepeater padString ((padToGo + 1) / 2)
      ((half ++ input) ++ half).take padLength

/-- `removeDecoration` as the table calls it (result only; the table shares one
formatter object, whose state the inputs considered here leave unchanged). -/
def removeDecorationRes (f : OutputFormatter) (s : List Char) :
    Except FmtErr (List Char) :=
  (removeDecorationSt f s).1

/-- `lengthWithoutDecoration` as the table calls it (result only). -/
def lengthWithoutDecorationRes (f : OutputFormatter) (s : List Char) :
    Except FmtErr Nat :=
  (lengthWithoutDecorationSt f s).1

/-- `Helper.chunkString`: `false` — an error at the caller — when the chunk
length is smaller than 1. -/
def chunkStringAux : Nat → Nat → List Char → List (List Char)
  | _, _, [] => []
  | 0, _, l => [l]
  | fuel + 1, n, l => l.take n :: chunkStringAux fuel n (l.drop n)

/-- `Helper.chunkString` wrapper. -/
def chunkString (s : List Char) (splitLength : Nat) :
    Except FmtErr (List (List Char)) :=
  if splitLength < 1 then .error .chunkError
  else .ok (chunkStringAux s.length splitLength s)

/-- `Table.getColumnSeparatorWidth`. -/
def getColumnSeparatorWidth (style : TableStyle) : Nat :=
  (sprintfS style.borderFormat style.verticalBorderChar).length

/-- `row[column] = content` over the local row copy of `calculateColumnsWidth`;
the assignment may extend the array, leaving JS holes (`none`). -/
def setExtendOpt (l : List (Option TCell)) (idx : Nat) (v : Option TCell) :
    List (Option TCell) :=
  if idx < l.length then l.set idx v
  else l ++ List.replicate (idx - l.length) none ++ [v]

/-- `Table.getCellWidth`: the visible length of a truthy cell (falsy cells —
holes and empty strings — contribute 0), floored by the user minimum width
`this.columnWidths[column] || 0`. -/
def getCellWidth (f : OutputFormatter) (row : List (Option TCell))
    (userWidths : List (Nat × Nat)) (column : Nat) : Except FmtErr Nat := do
  let cellWidth ←
    match row.get? column with
    | some (some c) =>
      if cellTruthy c then lengthWithoutDecorationRes f (cellStrOf c)
      else pure (0 : Nat)
    | _ => pure (0 : Nat)
  pure (Nat.max cellWidth ((assocLookup userWidths column).getD 0))

/-- The chunk-distribution loop inside `calculateColumnsWidth`: each
`TableCell`'s decoration-free content is cut into colspan-sized chunks written
over the following positions of a local copy of the row (`i < row.length` is
re-read, so appended chunk strings are scanned — and skipped — too). A colspan
of 0 gives `Math.ceil(len / 0) = Infinity` in JS, i.e. a single chunk, modelled
by a chunk length of the full text. -/
def chunkRowAux (f : OutputFormatter) : Nat → Nat → List (Option TCell) →
    Except FmtErr (List (Option TCell))
  | 0, _, row => .ok row
  | fuel + 1, i, row =>
    if i ≥ row.length then .ok row
    else
      match (row.get? i).getD none with
      | some c =>
        if isTableCell c then do
          let textContent ← removeDecorationRes f (cellStrOf c)
          let textLength := textContent.length
          if textLength > 0 then do
            let splitLen := if cellColspan c = 0 then textLength
              else (textLength + cellColspan c - 1) / cellColspan c
            let contentColumns ← chunkString textContent splitLen
            let row2 := (List.range contentColumns.length).foldl
              (fun acc pos => setExtendOpt acc (i + pos)
                (some (.plain ((contentColumns.get? pos).getD [])))) row
            chunkRowAux f fuel (i + 1) row2
          else chunkRowAux f fuel (i + 1) row
        else chunkRowAux f fuel (i + 1) row
      | none => chunkRowAux f fuel (i + 1) row

/-- `Table.calculateColumnsWidth`: for each column, the maximum visible cell
width over all non-separator rows (each examined on a local copy with colspan
content distributed into chunks), plus the width the cell content format adds
(`cellRowContentFormat.length - 2`). -/
def calculateColumnsWidth (f : OutputFormatter) (style : TableStyle)
    (nCols : Nat) (userWidths : List (Nat × Nat)) (rows : List TRow) :
    Except FmtErr (List Nat) :=
  (List.range nCols).mapM (fun column => do
    let contentRows := rows.filterMap (fun r => match r with
      | .sep => none
      | .cells cs => some cs)
    let lengths ← contentRows.mapM (fun row => do
      let fuel := row.length + (row.map (fun c => (cellStrOf c).length)).sum + 1
      let row2 ← chunkRowAux f fuel 0 (row.map some)
      getCellWidth f row2 userWidths column)
    pure (lengths.foldl Nat.max 0 + style.cellRowContentFormat.length - 2))

/-- `Table.getColumnStyle`: the per-column style if set, else the table style. -/
def getColumnStyle (style : TableStyle) (columnStyles : List (Nat × TableStyle))
    (column : Nat) : TableStyle :=
  (assocLookup columnStyles column).getD style

/-- `Table.getRowColumns`: every column index except those grouped under a
colspan. `Helper.range(0, nCols - 1)` is `[0 .. nCols-1]` for `nCols ≥ 1` and
`[]` for `nCols = 0` (`range(0, -1)`), i.e. `List.range nCols`. -/
def getRowColumns (nCols : Nat) (row : List TCell) : List Nat :=
  (List.range row.length).foldl (fun cols cellKey =>
    match row.get? cellKey with
    | some c =>
      if isTableCell c ∧ cellColspan c > 1 then
        cols.filter (fun col =>
          ¬ (cellKey + 1 ≤ col ∧ col ≤ cellKey + cellColspan c - 1))
      else cols
    | none => cols) (List.range nCols)

/-- `Table.renderCell`: the padded cell content (a separator cell renders as a
rule of the combined width); a colspan cell absorbs the widths and separators of
the grouped columns; invisible decoration widens the pad target. -/
def renderCell (f : OutputFormatter) (style : TableStyle)
    (columnStyles : List (Nat × TableStyle)) (widths : List Nat)
    (row : List TCell) (column : Nat) (cellFormat : List Char) :
    Except FmtErr (List Char) := do
  let c := (row.get? column).getD (.plain [])
  let cellStr := cellStrOf c
  let width0 := widths.getD column 0
  let width1 :=
    if isTableCell c ∧ cellColspan c > 1 then
      width0 + ((List.range (cellColspan c - 1)).map (fun j =>
        getColumnSeparatorWidth style + widths.getD (column + 1 + j) 0)).sum
    else width0
  let colStyle := getColumnStyle style columnStyles column
  if isSepCell c then
    pure (sprintfS colStyle.borderFormat
      (repeatList colStyle.horizontalBorderChar width1))
  else do
    let lwd ← lengthWithoutDecorationRes f cellStr
    let width2 := width1 + cellStr.length - lwd
    let content := sprintfS colStyle.cellRowContentFormat cellStr
    pure (sprintfS cellFormat (strPad content width2 colStyle.paddingChar colStyle.padType))

/-- `Table.renderRow`: nothing for an empty row, else the column separator
interleaved with the rendered cells of the row's columns. -/
def renderRow (f : OutputFormatter) (style : TableStyle)
    (columnStyles : List (Nat × TableStyle)) (nCols : Nat) (widths : List Nat)
    (row : List TCell) (cellFormat : List Char) :
    Except FmtErr (Option (List Char)) :=
  if row.isEmpty then pure none
  else do
    let colSep := sprintfS style.borderFormat style.verticalBorderChar
    let cells ← (getRowColumns nCols row).mapM
      (fun column => renderCell f style columnStyles widths row column cellFormat)
    pure (some (colSep ++ (cells.map (· ++ colSep)).flatten))

/-- `Table.renderRowSeparator`: `+---+…+`, or no line when there are no columns
or the style has neither a horizontal border nor a crossing character. -/
def renderRowSeparator (style : TableStyle) (nCols : Nat) (widths : List Nat) :
    Option (List Char) :=
  if nCols = 0 then none
  else if style.horizontalBorderChar.isEmpty ∧ style.crossingChar.isEmpty then none
  else
    some (sprintfS style.borderFormat
      (style.crossingChar ++ ((List.range nCols).map (fun column =>
        repeatList style.horizontalBorderChar (widths.getD column 0)
          ++ style.crossingChar)).flatten))

/-- The `Table` state that `render` reads. -/
structure Table where
  headers : List (List TCell)
  rows : List TRow
  style : TableStyle
  columnStyles : List (Nat × TableStyle)
  columnWidths : List (Nat × Nat)
deriving DecidableEq

/-- `Table.render`: the lines written through `output.writeln`, in order — top
border; each built header row followed by a separator; each built body row
(`renderRow` on a separator object would emit nothing, and a built separator row
would render as a rule — both arms are dead because `buildTableRows` drops
separators); and a bottom border when there are built body rows. The `cleanup`
of the cached widths has no effect in this stateless model. -/
def Table.render (f : OutputFormatter) (t : Table) :
    Except FmtErr (List (List Char)) := do
  let nCols := calculateNumberOfColumns t.headers t.rows
  let rows := buildTableRows nCols t.rows
  let headers := buildTableRows nCols (t.headers.map TRow.cells)
  let widths ← calculateColumnsWidth f t.style nCols t.columnWidths (headers ++ rows)
  let sepLine := renderRowSeparator t.style nCols widths
  let headerLines ← headers.mapM (fun h =>
    match h with
    | .cells row => do
      let l ← renderRow f t.style t.columnStyles nCols widths row
        t.style.cellHeaderFormat
      pure (l.toList ++ sepLine.toList)
    | .sep => pure sepLine.toList)
  let rowLines ← rows.mapM (fun r =>
    match r with
    | .sep => pure sepLine.toList
    | .cells row => do
      let l ← renderRow f t.style t.columnStyles nCols widths row
        t.style.cellRowFormat
      pure l.toList)
  let bottom := if rows.isEmpty then [] else sepLine.toList
  pure (sepLine.toList ++ headerLines.flatten ++ rowLines.flatten ++ bottom)

/-! Helper lemmas shared by the claim theorems. -/

/-- Replacing a pattern that does not occur leaves the list unchanged. -/
theorem jsReplaceAllAux_eq_self (pat rep : List Char) (fuel : Nat) (l : List Char)
    (h : containsSub pat l = false) : jsReplaceAllAux pat rep fuel l = l := by
  induction fuel generalizing l with
  | zero => cases l <;> rfl
  | succ fuel ih =>
    cases l with
    | nil => rfl
    | cons c cs =>
      cases pat with
      | nil => simp [containsSub, startsWithChars] at h
      | cons p ps =>
        rw [containsSub, Bool.or_eq_false_iff] at h
        rw [jsReplaceAllAux]
        rw [if_neg (by simp [h.1])]
        rw [ih cs h.2]

/-- Replacing a pattern that does not occur leaves the list unchanged. -/
theorem jsReplaceAll_eq_self (pat rep l : List Char)
    (h : containsSub pat l = false) : jsReplaceAll pat rep l = l :=
  jsReplaceAllAux_eq_self pat rep l.length l h

/-- When the message has no tag match, `format` applies the current style to the
whole message and unescapes, leaving the formatter untouched. -/
theorem format_no_tag (f : OutputFormatter) (T : List Char)
    (hdec : f.decorated = false) (htag : findTagFrom T 0 = none) :
    format f T = (.ok (unescapeOutput T), f) := by
  rw [format, formatLoop, htag]
  simp [OutputFormatter.applyCurrentStyle, hdec]

/-- On escape-free output the unescaping step of `format` is the identity. -/
theorem unescapeOutput_eq_self (T : List Char)
    (hesc : containsSub "\\<".toList T = false)
    (hsent : containsSub "<<".toList T = false) : unescapeOutput T = T := by
  have hsent2 : containsSub ['<', '<'] T = false := hsent
  rw [unescapeOutput, if_neg (by simp [hsent2])]
  exact jsReplaceAll_eq_self _ _ _ hesc

/-- `this.styles.pop()` on an array ending in `a` yields `a` and the rest. -/
theorem popLast_concat (l : List OutputFormatterStyle) (a : OutputFormatterStyle) :
    popLast (l ++ [a]) = some (a, l) := by
  induction l with
  | nil => rfl
  | cons c cs ih => rw [List.cons_append, popLast, ih]

/-- The top-down search of `pop(style)` finds nothing when no stack entry has the
same rendered output. -/
theorem popMatch_eq_none (l : List OutputFormatterStyle) (s : OutputFormatterStyle)
    (h : ∀ x ∈ l, x.apply [] ≠ s.apply []) : popMatch l s = none := by
  induction l with
  | nil => rfl
  | cons c rest ih =>
    rw [popMatch, ih (fun x hx => h x (List.mem_cons_of_mem _ hx)),
      if_neg (h c (List.mem_cons_self _ _))]

/-- The top-down search of `pop(style)` returns the topmost entry with the same
rendered output, together with everything strictly below it. -/
theorem popMatch_concat_found (pre post : List OutputFormatterStyle)
    (m s : OutputFormatterStyle) (hm : m.apply [] = s.apply [])
    (hpost : ∀ x ∈ post, x.apply [] ≠ s.apply []) :
    popMatch (pre ++ m :: post) s = some (m, pre) := by
  induction pre with
  | nil => rw [List.nil_append, popMatch, popMatch_eq_none post s hpost, if_pos hm]
  | cons c cs ih => rw [List.cons_append, popMatch, ih]

/-- Looking up the key just set returns the new value. -/
theorem assocLookup_assocSet {κ α : Type} [DecidableEq κ]
    (m : List (κ × α)) (k : κ) (v : α) :
    assocLookup (assocSet m k v) k = some v := by
  induction m with
  | nil => simp [assocSet, assocLookup]
  | cons p rest ih =>
    obtain ⟨k1, v1⟩ := p
    by_cases h : k1 = k
    · simp [assocSet, h, assocLookup]
    · simp [assocSet, h, assocLookup, ih]

/-! Claim theorems for the formatter, style stack and progress bar. -/

/-- C1 (code bug): a cell whose content contains a line break is *not* split by
the row-building step. The guard in `buildTableRows` reads
`if (cellStr.includes('\n')) continue`, skipping exactly the multi-line cells
the comment above it says it splits, so the cell stays in its row with the
embedded newline and no standalone row is inserted after it (the claim expects
`[["a"], ["b"]]`). -/
theorem c1_multiline_cell_not_split :
    buildTableRows 1 [TRow.cells [TCell.plain "a\nb".toList]]
      = [TRow.cells [TCell.plain "a\nb".toList]]
    ∧ [TRow.cells [TCell.plain "a\nb".toList]]
      ≠ [TRow.cells [TCell.plain "a".toList], TRow.cells [TCell.plain "b".toList]] :=
  ⟨rfl, by decide⟩

/-- C2 (code bug): a `TableSeparator` body row does not render as a horizontal
rule — both loops of `buildTableRows` skip separator rows with `continue`, so
they are dropped from the built rows before `render`'s
`row instanceof TableSeparator` branch could ever see one. A table with body
rows `[["1"], TableSeparator, ["2"]]` renders six lines with no rule between
`| 1 |` and `| 2 |`; the claim requires a rule line there. -/
theorem c2_separator_row_dropped :
    buildTableRows 1 [TRow.cells [TCell.plain "1".toList], TRow.sep,
        TRow.cells [TCell.plain "2".toList]]
      = [TRow.cells [TCell.plain "1".toList], TRow.cells [TCell.plain "2".toList]]
    ∧ Table.render (defaultFormatter false)
        { headers := [[TCell.plain "A".toList]],
          rows := [TRow.cells [TCell.plain "1".toList], TRow.sep,
                   TRow.cells [TCell.plain "2".toList]],
          style := defaultTableStyle, columnStyles := [], columnWidths := [] }
      = .ok ["+---+".toList, "|<info> A </info>|".toList, "+---+".toList,
             "| 1 |".toList, "| 2 |".toList, "+---+".toList] :=
  ⟨rfl, rfl⟩

/-- C3 (counterexample): an opening tag with an unknown inline color, such as
`<fg=pink>`, is not recovered: `setForeground` throws a `ReferenceError` that
propagates out of `format`, contradicting the claim that `format` does not
throw for any unresolvable tag. -/
theorem c3_counterexample :
    (format (defaultFormatter false) "<fg=pink>x".toList).1
      = .error .invalidForeground := rfl

/-- C3 (amended): an opening tag whose name resolves to no registered style and
parses no `key=value` clause, and an inline spec whose failure is an unknown
`options=` name, are recovered locally — `createStyleFromString` returns `false`
(modelled `.ok none`) instead of throwing, and `format` emits the tag text
literally and continues, as the concrete run shows; an unknown `fg=`/`bg=`
color, by contrast, throws (see the counterexample). -/
theorem c3_amended :
    (∀ (f : OutputFormatter) (s : List Char),
        assocLookup f.styles s = none → execClauses s = [] →
        createStyleFromString f s = .ok none)
    ∧ (∀ f : OutputFormatter,
        assocLookup f.styles "options=foo".toList = none →
        createStyleFromString f "options=foo".toList = .ok none)
    ∧ (format (defaultFormatter false) "a<options=foo>b<pink>c</nope>d".toList
        = (.ok "a<options=foo>b<pink>c</nope>d".toList, defaultFormatter false)) := by
  refine ⟨fun f s h1 h2 => ?_, fun f h1 => ?_, rfl⟩
  · rw [createStyleFromString, h1, h2]
  · rw [createStyleFromString, h1]; rfl

/-- C3 (witness for the amended theorem): instances at concrete inputs. -/
theorem c3_witness :
    createStyleFromString (defaultFormatter false) "pink".toList = .ok none
    ∧ createStyleFromString (defaultFormatter false) "options=foo".toList = .ok none :=
  ⟨c3_amended.1 (defaultFormatter false) "pink".toList rfl rfl,
   c3_amended.2.1 (defaultFormatter false) rfl⟩

/-- C4 (counterexample): the two-character text `\<` contains no markup tag, yet
with decoration disabled `format` returns `<` (the final unescape pass rewrites
`\<`), and its computed length without decoration is 1, not 2. -/
theorem c4_counterexample :
    findTagFrom "\\<".toList 0 = none
    ∧ (format (defaultFormatter false) "\\<".toList).1 = .ok "<".toList
    ∧ "<".toList ≠ "\\<".toList
    ∧ (lengthWithoutDecorationSt (defaultFormatter false) "\\<".toList).1 = .ok 1
    ∧ "\\<".toList.length = 2 :=
  ⟨rfl, rfl, by decide, rfl, rfl⟩

/-- C4 (amended): for text containing no markup tag and none of the
escape-significant sequences `\<` and `<<`, and which raw ANSI stripping leaves
unchanged, `format` with decoration disabled returns the text unchanged (and
leaves the formatter untouched), and `lengthWithoutDecoration` — on a formatter
with either decoration setting — equals the text length. -/
theorem c4_amended (f g : OutputFormatter) (T : List Char)
    (hdec : f.decorated = false)
    (htag : findTagFrom T 0 = none)
    (hesc : containsSub "\\<".toList T = false)
    (hsent : containsSub "<<".toList T = false)
    (hstrip : stripAnsi T = T) :
    format f T = (.ok T, f)
    ∧ lengthWithoutDecorationSt g T = (.ok T.length, g) := by
  have hun := unescapeOutput_eq_self T hesc hsent
  constructor
  · rw [format_no_tag f T hdec htag, hun]
  · have h2 : format { g with decorated := false } T
        = (.ok T, { g with decorated := false }) := by
      rw [format_no_tag _ T rfl htag, hun]
    have h3 : removeDecorationSt g T = (.ok T, g) := by
      rw [removeDecorationSt, h2]
      show (Except.ok (stripAnsi T),
        ({ decorated := g.decorated, styles := g.styles,
           styleStack := g.styleStack } : OutputFormatter)) = _
      rw [hstrip]
    rw [lengthWithoutDecorationSt, h3]

/-- C4 (witness): the amended theorem at a concrete tag-free text. -/
theorem c4_witness :
    format (defaultFormatter false) "hello a < b".toList
        = (.ok "hello a < b".toList, defaultFormatter false)
    ∧ lengthWithoutDecorationSt (defaultFormatter true) "hello a < b".toList
        = (.ok "hello a < b".toList.length, defaultFormatter true) :=
  c4_amended (defaultFormatter false) (defaultFormatter true) "hello a < b".toList
    rfl rfl rfl rfl rfl

/-- C5 (counterexample): popping an empty stack with a style argument does not
fail with a nesting error, although no matching entry exists — it returns the
registered empty style and leaves the stack empty. -/
theorem c5_counterexample :
    OutputFormatterStyleStack.pop ⟨[], emptyOFStyle⟩ (some styleInfo)
      = .ok (emptyOFStyle, ⟨[], emptyOFStyle⟩) := rfl

/-- C5 (amended): on a non-empty stack, pop without an argument removes and
returns exactly the top entry; pop with a style argument removes and returns the
topmost entry whose rendered output on `''` equals that of the argument,
together with everything above it, and fails with a nesting error exactly when
the (non-empty) stack has no such entry. On an empty stack pop returns the
registered empty style without error (see the counterexample). -/
theorem c5_amended :
    (∀ (init : List OutputFormatterStyle) (top e : OutputFormatterStyle),
        OutputFormatterStyleStack.pop ⟨init ++ [top], e⟩ none
          = .ok (top, ⟨init, e⟩))
    ∧ (∀ (pre post : List OutputFormatterStyle) (m s e : OutputFormatterStyle),
        m.apply [] = s.apply [] →
        (∀ x ∈ post, x.apply [] ≠ s.apply []) →
        OutputFormatterStyleStack.pop ⟨pre ++ m :: post, e⟩ (some s)
          = .ok (m, ⟨pre, e⟩))
    ∧ (∀ (l : List OutputFormatterStyle) (s e : OutputFormatterStyle),
        l ≠ [] → (∀ x ∈ l, x.apply [] ≠ s.apply []) →
        OutputFormatterStyleStack.pop ⟨l, e⟩ (some s) = .error ()) := by
  refine ⟨fun init top e => ?_, fun pre post m s e hm hpost => ?_, fun l s e hne h => ?_⟩
  · cases init with
    | nil => rfl
    | cons c cs =>
      have hp : popLast (c :: (cs ++ [top])) = some (top, c :: cs) := by
        rw [← List.cons_append]; exact popLast_concat _ _
      simp only [List.cons_append, OutputFormatterStyleStack.pop, hp]
  · have hpm := popMatch_concat_found pre post m s hm hpost
    cases pre with
    | nil =>
      rw [List.nil_append] at hpm ⊢
      simp only [OutputFormatterStyleStack.pop, hpm]
    | cons c cs =>
      rw [List.cons_append] at hpm ⊢
      simp only [OutputFormatterStyleStack.pop, hpm]
  · cases l with
    | nil => exact absurd rfl hne
    | cons y ys =>
      simp only [OutputFormatterStyleStack.pop, popMatch_eq_none _ _ h]

/-- C5 (witness): closing by style on a stack `[error, info]` removes the top
matching entry and leaves only what is below it. -/
theorem c5_witness :
    OutputFormatterStyleStack.pop ⟨[styleError, styleInfo], emptyOFStyle⟩
        (some styleInfo)
      = .ok (styleInfo, ⟨[styleError], emptyOFStyle⟩) :=
  c5_amended.2.1 [styleError] [] styleInfo styleInfo emptyOFStyle rfl (by simp)

/-- C6 (code bug): the escape/format round trip fails on the two-character input
`<\`. Escaping yields `\<<<` (the `<` is escaped, the trailing backslash becomes
the `<<` sentinel), but because the output contains `<<`, `format` unescapes via
`safeReplace`, whose key `\<` is compiled to the regex `/\</` matching a plain
`<` — so the pass that should drop the escaping backslash is the identity, and
the result `\\<` is neither the original text nor preserves the trailing
backslash. -/
theorem c6_roundtrip_fails :
    escape "<\\".toList = "\\<<<".toList
    ∧ (format (defaultFormatter false) (escape "<\\".toList)).1 = .ok "\\\\<".toList
    ∧ "\\\\<".toList ≠ "<\\".toList :=
  ⟨rfl, rfl, by decide⟩

/-- C7 (counterexample): on a formatter whose persistent stack holds the `info`
style, computing `lengthWithoutDecoration` of `</error>` throws a nesting error
from `pop`, and because there is no try/finally the decorated flag — `true`
beforehand — is left `false`. -/
theorem c7_counterexample :
    ({ decorated := true, styles := (defaultFormatter true).styles,
       styleStack := ⟨[styleInfo], emptyOFStyle⟩ } : OutputFormatter).decorated = true
    ∧ (removeDecorationSt
        { decorated := true, styles := (defaultFormatter true).styles,
          styleStack := ⟨[styleInfo], emptyOFStyle⟩ } "</error>".toList).2.decorated
        = false
    ∧ (removeDecorationSt
        { decorated := true, styles := (defaultFormatter true).styles,
          styleStack := ⟨[styleInfo], emptyOFStyle⟩ } "</error>".toList).1
        = .error .nestingError :=
  ⟨rfl, rfl, rfl⟩

/-- C7 (amended): the result of `removeDecoration` (value or error) never
depends on the prior decorated flag, and whenever the inner `format` call
completes without throwing, the decorated flag is restored to its prior value;
only when `format` throws is the flag left `false` (see the counterexample). -/
theorem c7_amended :
    (∀ (f : OutputFormatter) (T : List Char) (b : Bool),
        (removeDecorationSt { f with decorated := b } T).1
          = (removeDecorationSt f T).1)
    ∧ (∀ (f : OutputFormatter) (T out : List Char) (f2 : OutputFormatter),
        format { f with decorated := false } T = (.ok out, f2) →
        (removeDecorationSt f T).2.decorated = f.decorated) := by
  constructor
  · intro f T b
    obtain ⟨d, stys, stk⟩ := f
    rw [removeDecorationSt, removeDecorationSt]
    cases hf : format { (⟨b, stys, stk⟩ : OutputFormatter) with decorated := false } T with
    | mk r f2 => cases r <;> rfl
  · intro f T out f2 h
    rw [removeDecorationSt, h]

/-- C7 (witness): the amended theorem at a concrete formatter and input. -/
theorem c7_witness :
    (removeDecorationSt (defaultFormatter true) "ab".toList).2.decorated
      = (defaultFormatter true).decorated :=
  c7_amended.2 (defaultFormatter true) "ab".toList "ab".toList
    { defaultFormatter true with decorated := false } rfl

/-- C8: `setProgress` raises a known (non-zero) max to the step instead of
clamping the step down, clamps a negative step to 0, and — together with
`advance` — preserves the invariant `0 ≤ step` and `max ≠ 0 → step ≤ max`,
assuming the `0 ≤ max` invariant that `setMaxSteps` establishes. -/
theorem c8_set_progress_invariant (s : ProgressBarState) (st : Int)
    (hmax : 0 ≤ s.max) :
    (s.max ≠ 0 → s.max < st →
        (s.setProgress st).max = st ∧ (s.setProgress st).step = st)
    ∧ (st < 0 → (s.setProgress st).step = 0)
    ∧ (0 ≤ (s.setProgress st).step
        ∧ ((s.setProgress st).max ≠ 0 → (s.setProgress st).step ≤ (s.setProgress st).max))
    ∧ (∀ d : Int, 0 ≤ (s.advance d).step
        ∧ ((s.advance d).max ≠ 0 → (s.advance d).step ≤ (s.advance d).max))
    ∧ (∀ m : Int, 0 ≤ (s.setMaxSteps m).max) := by
  have main : ∀ t : Int, (0 ≤ (s.setProgress t).step
      ∧ ((s.setProgress t).max ≠ 0 → (s.setProgress t).step ≤ (s.setProgress t).max)) := by
    intro t
    rw [ProgressBarState.setProgress]
    split_ifs with h1 h2
    · exact ⟨show (0 : Int) ≤ t by omega, fun _ => show t ≤ t from le_refl t⟩
    · exact ⟨show (0 : Int) ≤ 0 from le_refl 0, fun _ => show (0 : Int) ≤ s.max from hmax⟩
    · refine ⟨show (0 : Int) ≤ t by omega, fun hne => ?_⟩
      have hne2 : s.max ≠ 0 := hne
      show t ≤ s.max
      omega
  refine ⟨fun hne hlt => ?_, fun hneg => ?_, main st, fun d => main _, fun m => ?_⟩
  · rw [ProgressBarState.setProgress, if_pos ⟨hne, hlt⟩]
    exact ⟨rfl, rfl⟩
  · rw [ProgressBarState.setProgress, if_neg (show ¬(s.max ≠ 0 ∧ s.max < st) by omega),
      if_pos hneg]
  · have hdef : (s.setMaxSteps m).max = Max.max 0 m := rfl
    rw [hdef]
    exact le_max_left 0 m

/-- C8 (witness): the invariant theorem at a concrete bar state and step. -/
theorem c8_witness :
    (({ step := 0, max := 10 } : ProgressBarState).setProgress 15).max = 15
    ∧ 0 ≤ (({ step := 0, max := 10 } : ProgressBarState).setProgress (-3)).step :=
  ⟨((c8_set_progress_invariant ⟨0, 10⟩ 15 (by decide)).1 (by decide) (by decide)).1,
   (c8_set_progress_invariant ⟨0, 10⟩ (-3) (by decide)).2.2.1.1⟩

/-- C9: popping an empty style stack — with or without a style argument — raises
no nesting error; it returns the registered empty style and leaves the stack
empty. -/
theorem c9_pop_empty_stack (e : OutputFormatterStyle)
    (arg : Option OutputFormatterStyle) :
    OutputFormatterStyleStack.pop ⟨[], e⟩ arg = .ok (e, ⟨[], e⟩) := rfl

/-- C10: style names are case-insensitive — after `setStyle(name, style)`,
`hasStyle` is true and `getStyle` returns that style for every casing variant of
the name (lookups key on the lowercased name) — and `getStyle` throws exactly
when `hasStyle` is false. -/
theorem c10_style_names_case_insensitive :
    (∀ (f : OutputFormatter) (name variant : List Char) (st : OutputFormatterStyle),
        toLowerStr variant = toLowerStr name →
        (f.setStyle name st).hasStyle variant = true
          ∧ (f.setStyle name st).getStyle variant = .ok st)
    ∧ (∀ (f : OutputFormatter) (name : List Char),
        f.getStyle name = .error () ↔ f.hasStyle name = false) := by
  constructor
  · intro f name variant st h
    have hl : assocLookup (f.setStyle name st).styles (toLowerStr variant) = some st := by
      rw [OutputFormatter.setStyle, h]
      exact assocLookup_assocSet f.styles (toLowerStr name) st
    have hh : (f.setStyle name st).hasStyle variant = true := by
      rw [OutputFormatter.hasStyle, hl]; rfl
    refine ⟨hh, ?_⟩
    rw [OutputFormatter.getStyle, if_pos hh, hl]
  · intro f name
    rw [OutputFormatter.getStyle, OutputFormatter.hasStyle]
    cases h : assocLookup f.styles (toLowerStr name) with
    | none => simp [OutputFormatter.hasStyle, h]
    | some st => simp [OutputFormatter.hasStyle, h]

/-- C10 (witness): the case-insensitivity theorem at concrete names. -/
theorem c10_witness :
    ((defaultFormatter false).setStyle "MyStyle".toList styleComment).hasStyle
        "MYSTYLE".toList = true
    ∧ ((defaultFormatter false).setStyle "MyStyle".toList styleComment).getStyle
        "mystyle".toList = .ok styleComment :=
  ⟨(c10_style_names_case_insensitive.1 (defaultFormatter false) "MyStyle".toList
      "MYSTYLE".toList styleComment (by decide)).1,
   (c10_style_names_case_insensitive.1 (defaultFormatter false) "MyStyle".toList
      "mystyle".toList styleComment (by decide)).2⟩

end SymfonyConsole
